import Mathlib

/-!
# Verification of the hosts-file editor core (src/App.vue)

A shallow embedding of the line-oriented core of the hosts-file editor:
the line parser (stringToLineModel), the line renderer (renderLineModel),
the mapping-record predicate (isEntry), the save serializer (flushFile),
the search ranker (sortLineModelsBySearchString / sortedEntries), the
delete/restore toggle, and the renew flow (onRenewEntryButtonClick).

Text is modelled as Lean String (a wrapper around List Char); JavaScript
string fields that may hold the value undefined are modelled as
Option String (none = undefined).  Similarity scores are modelled as
exact rationals.
-/

/-! ## Character-level text helpers (JS string primitives) -/

/-- The whitespace characters recognised by the JS string primitives used in
the source (trim, the whitespace-stripping regex); restricted to the ASCII
whitespace characters, which are the ones relevant to hosts-file lines. -/
def isJsWhitespaceChar (c : Char) : Bool :=
  c = ' ' || c = '\t' || c = '\n' || c = '\r' || c = '\x0b' || c = '\x0c'

/-- JS String.prototype.trim on a character list: drop whitespace from both
ends. -/
def jsTrimList (l : List Char) : List Char :=
  ((l.dropWhile isJsWhitespaceChar).reverse.dropWhile isJsWhitespaceChar).reverse

/-- JS String.prototype.trim, as used by stringToLineModel. -/
def jsTrim (s : String) : String :=
  String.mk (jsTrimList s.data)

/-- Worker for tokens: acc holds the current partial token, reversed. -/
def tokensAux : List Char → List Char → List (List Char)
  | acc, [] => if acc = [] then [] else [acc.reverse]
  | acc, c :: rest =>
    if c = ' ' then
      if acc = [] then tokensAux [] rest else acc.reverse :: tokensAux [] rest
    else
      tokensAux (c :: acc) rest

/-- JS String.prototype.split on the regex of one-or-more space characters
(the source splits the trimmed line with split of one-or-more spaces): the
maximal runs of non-space characters.  On a trimmed line this agrees with
the JS split result (no boundary empty strings arise after trimming). -/
def tokens (l : List Char) : List (List Char) :=
  tokensAux [] l

/-- JS Array.prototype.join with a single-space separator, on character
lists. -/
def joinSpace : List (List Char) → List Char
  | [] => []
  | [d] => d
  | d :: d2 :: rest => d ++ ' ' :: joinSpace (d2 :: rest)

/-- Collapse every run of two-or-more spaces to a single space (keeps other
characters, including tabs, unchanged).  This is the whitespace
normalisation the spec describes for the render-after-parse round trip. -/
def collapseSpaces : List Char → List Char
  | [] => []
  | [c] => [c]
  | c :: c2 :: rest =>
    if c = ' ' ∧ c2 = ' ' then collapseSpaces (c2 :: rest)
    else c :: collapseSpaces (c2 :: rest)

/-! ## The line-record data model -/

/-- The two record kinds of the source: Plain (id, isDeleted, value) for
comment-or-blank lines and Entry (id, isDeleted, ipAddress, domains) for
mapping lines.  ipAddress is Option String because the JS field can come to
hold the value undefined (none); the parser always stores a present
string. -/
inductive LineModel where
  | plain (id : Nat) (isDeleted : Bool) (value : String)
  | entry (id : Nat) (isDeleted : Bool) (ipAddress : Option String) (domains : List String)
  deriving DecidableEq

/-- The id field shared by both record kinds. -/
def idOf : LineModel → Nat
  | .plain i _ _ => i
  | .entry i _ _ _ => i

/-- The isDeleted field shared by both record kinds. -/
def isDeletedOf : LineModel → Bool
  | .plain _ d _ => d
  | .entry _ d _ _ => d

/-- The domains field: a Plain record has no domains array. -/
def domainsOf : LineModel → List String
  | .plain _ _ _ => []
  | .entry _ _ _ ds => ds

/-- isEntry from the source: the object has a domains array (only Entry
records do) and its ipAddress differs from the literal string
"undefined". -/
def isEntry : LineModel → Bool
  | .plain _ _ _ => false
  | .entry _ _ ip _ => ip ≠ some "undefined"

/-- Whether the record is of the mapping variant (regardless of the
isEntry predicate). -/
def isMappingRecord : LineModel → Bool
  | .plain _ _ _ => false
  | .entry _ _ _ _ => true

/-! ## Parser and renderer -/

/-- stringToLineModel from the source: trim the line; a line that starts
with the hash character or is empty becomes a Plain record holding the
trimmed text; otherwise the trimmed line is split on runs of spaces, the
first token (JS index 0, undefined when absent) becomes ipAddress and the
remaining tokens (JS splice from 1) become domains. -/
def stringToLineModel (line : String) (nextId : Nat) : LineModel :=
  let t := jsTrim line
  if t.data.head? = some '#' ∨ t.data = [] then
    .plain nextId false t
  else
    let parts := (tokens t.data).map String.mk
    .entry nextId false parts.head? parts.tail

/-- JS template-literal stringification of a field that may be undefined:
the value undefined prints as the string "undefined". -/
def jsStringOfField : Option String → String
  | some s => s
  | none => "undefined"

/-- renderLineModel from the source: a record passing isEntry renders as
its ipAddress, a space, and the domains joined with single spaces (the
template literal stringifies an undefined ipAddress as "undefined"); any
other record yields its value field — which an Entry record does not have,
so the JS function returns undefined (modelled as none) for an Entry
failing isEntry. -/
def renderLineModel : LineModel → Option String
  | .plain _ _ v => some v
  | .entry id del ip ds =>
    if isEntry (.entry id del ip ds) then
      some (jsStringOfField ip ++ " " ++ String.mk (joinSpace (ds.map String.data)))
    else
      none

/-- The list of lines flushFile writes: every record rendered by
renderLineModel, in store order; JS Array.prototype.join stringifies an
undefined element as the empty string. -/
def flushFileLines (lineModels : List LineModel) : List String :=
  lineModels.map (fun m => (renderLineModel m).getD "")

/-- The full text flushFile writes: the rendered lines joined with
newlines. -/
def flushFileText (lineModels : List LineModel) : String :=
  String.intercalate "\n" (flushFileLines lineModels)

/-! ## Search ranking -/

/-- The character bigrams of a string, as the similarity scorer computes
them. -/
def bigrams : List Char → List (Char × Char)
  | c1 :: c2 :: rest => (c1, c2) :: bigrams (c2 :: rest)
  | _ => []

/-- Remove every whitespace character (the JS global whitespace-removing
replace the scorer applies first). -/
def stripWhitespace (l : List Char) : List Char :=
  l.filter (fun c => ¬ isJsWhitespaceChar c)

/-- Modelled from the spec: the similarity scorer of the third-party
string-similarity package (its source is not part of this repository),
which the spec pins down as the Dice coefficient over character bigrams:
strip whitespace from both strings; equal strings score 1; if either
stripped string is shorter than two characters the score is 0; otherwise
the score is twice the size of the multiset intersection of the bigram
lists divided by the total number of bigrams.  Scores are exact
rationals. -/
def compareTwoStrings (first second : String) : ℚ :=
  let f := stripWhitespace first.data
  let s := stripWhitespace second.data
  if f = s then 1
  else if f.length < 2 ∨ s.length < 2 then 0
  else
    (2 * (((bigrams s).bagInter (bigrams f)).length : ℚ)) /
      ((f.length : ℚ) + (s.length : ℚ) - 2)

/-- Modelled from the spec: the per-entry relevance the comparator
computes — the maximum of the similarity ratings of the query against each
domain of the entry (Math.max over the ratings of findBestMatch).  The
third-party findBestMatch rejects an empty target list; the model returns
the fold default -1 there, standing for the JS Math.max of no
arguments. -/
def bestMatchRating (searchString : String) (ds : List String) : ℚ :=
  (ds.map (fun d => compareTwoStrings searchString d)).foldr max (-1)

/-- sortLineModelsBySearchString from the source: the comparator value for
a pair of entries — the best-match rating of the right entry minus the
best-match rating of the left entry (negative means the left entry sorts
first). -/
def sortLineModelsBySearchString (searchString : String)
    (leftEntry rightEntry : LineModel) : ℚ :=
  bestMatchRating searchString (domainsOf rightEntry) -
    bestMatchRating searchString (domainsOf leftEntry)

/-- sortedEntries from the source: filter the store to records passing
isEntry, then sort with the comparator.  JS Array.prototype.sort with a
consistent comparator is modelled as a stable merge sort where a record
may precede another when the comparator value is non-positive. -/
def sortedEntries (searchString : String) (lineModels : List LineModel) : List LineModel :=
  (lineModels.filter isEntry).mergeSort
    (fun a b => sortLineModelsBySearchString searchString a b ≤ 0)

/-! ## Delete / restore and renew -/

/-- onDeleteEntryButtonClick from the source: set isDeleted to true. -/
def onDeleteEntryButtonClick : LineModel → LineModel
  | .plain i _ v => .plain i true v
  | .entry i _ ip ds => .entry i true ip ds

/-- onRestoreEntryButtonClick from the source: set isDeleted to false. -/
def onRestoreEntryButtonClick : LineModel → LineModel
  | .plain i _ v => .plain i false v
  | .entry i _ ip ds => .entry i false ip ds

/-- The action of the button renderDeleteOrRestoreButton wires up: a
deleted record gets the restore handler, any other record the delete
handler — together, one click flips the isDeleted flag. -/
def toggleDeleted (m : LineModel) : LineModel :=
  if isDeletedOf m then onRestoreEntryButtonClick m else onDeleteEntryButtonClick m

/-- The store-level delete/restore toggle: flip the flag of every record
carrying the given identifier (identifiers are unique in practice). -/
def toggleDeletedById (lineModels : List LineModel) (targetId : Nat) : List LineModel :=
  lineModels.map (fun m => if idOf m = targetId then toggleDeleted m else m)

/-- The JSON body of the remote lookup response, from the source. -/
structure ApiResponse where
  ip_addresses : List String
  message : String
  status : Nat
  deriving DecidableEq

/-- Promise.all over the per-domain requests: the joined result is the
list of fulfilled values, or the error of a rejected request. -/
def promiseAll {ε α : Type} : List (Except ε α) → Except ε (List α)
  | [] => .ok []
  | .error e :: _ => .error e
  | .ok a :: rest => (promiseAll rest).map (fun l => a :: l)

/-- Overwrite the ipAddress field of an Entry record (the renew flow only
ever runs on records passing isEntry, which are Entry records; a Plain
record is returned unchanged). -/
def setIpAddress : LineModel → Option String → LineModel
  | .plain i d v, _ => .plain i d v
  | .entry i d _ ds, ip => .entry i d ip ds

/-- onRenewEntryButtonClick from the source, as a function of the record
and the outcome of each per-domain request (in domain order): when every
request fulfils and at least one response exists, the record's ipAddress
is assigned element 0 of the first response's ip_addresses array (JS index
0 of an empty array is undefined, modelled as none); when any request
rejects, the record is unchanged and one alert is shown.  The second
component counts the alert notifications surfaced. -/
def onRenewEntryButtonClick (entry : LineModel)
    (responses : List (Except Unit ApiResponse)) : LineModel × Nat :=
  match promiseAll responses with
  | .ok [] => (entry, 0)
  | .ok (firstResponse :: _) =>
    (setIpAddress entry firstResponse.ip_addresses.head?, 0)
  | .error _ => (entry, 1)

/-! ## Basic record lemmas -/

@[simp]
theorem data_mk (l : List Char) : (String.mk l).data = l := rfl

@[simp]
theorem mk_data (s : String) : String.mk s.data = s := rfl

theorem mk_append (a b : List Char) : String.mk a ++ String.mk b = String.mk (a ++ b) := rfl

theorem toggleDeleted_toggleDeleted (m : LineModel) : toggleDeleted (toggleDeleted m) = m := by
  cases m with
  | plain i d v => cases d <;> rfl
  | entry i d ip ds => cases d <;> rfl

theorem idOf_toggleDeleted (m : LineModel) : idOf (toggleDeleted m) = idOf m := by
  cases m with
  | plain i d v => cases d <;> rfl
  | entry i d ip ds => cases d <;> rfl

theorem onRestore_toggleDeleted (m : LineModel) :
    onRestoreEntryButtonClick (toggleDeleted m) = onRestoreEntryButtonClick m := by
  cases m with
  | plain i d v => cases d <;> rfl
  | entry i d ip ds => cases d <;> rfl

theorem domainsOf_toggleDeleted (m : LineModel) : domainsOf (toggleDeleted m) = domainsOf m := by
  cases m with
  | plain i d v => cases d <;> rfl
  | entry i d ip ds => cases d <;> rfl

theorem domainsOf_setIpAddress (m : LineModel) (ip : Option String) :
    domainsOf (setIpAddress m ip) = domainsOf m := by
  cases m <;> rfl

theorem domainsOf_onRenew (m : LineModel) (rs : List (Except Unit ApiResponse)) :
    domainsOf (onRenewEntryButtonClick m rs).1 = domainsOf m := by
  unfold onRenewEntryButtonClick
  cases promiseAll rs with
  | error e => rfl
  | ok l => cases l <;> simp [domainsOf_setIpAddress]

/-! ## Similarity-score lemmas -/

theorem length_bigrams : ∀ l : List Char, (bigrams l).length = l.length - 1
  | [] => rfl
  | [_] => rfl
  | c1 :: c2 :: rest => by
    have ih := length_bigrams (c2 :: rest)
    simp only [bigrams, List.length_cons] at ih ⊢
    omega

theorem bagInter_nil_right {α : Type} [BEq α] : ∀ l : List α, l.bagInter [] = []
  | [] => by simp [List.bagInter]
  | a :: l => by simp [List.bagInter, bagInter_nil_right l]

theorem bagInter_cons_cons {α : Type} [BEq α] (a b : α) (l₁ l₂ : List α) :
    (a :: l₁).bagInter (b :: l₂) =
      if (b :: l₂).elem a then a :: l₁.bagInter ((b :: l₂).erase a)
      else l₁.bagInter (b :: l₂) := by
  simp [List.bagInter]

theorem length_bagInter_le_left {α : Type} [BEq α] [LawfulBEq α] :
    ∀ l₁ l₂ : List α, (l₁.bagInter l₂).length ≤ l₁.length
  | [], _ => by simp [List.bagInter]
  | _ :: l₁, [] => by simp [bagInter_nil_right]
  | a :: l₁, b :: l₂ => by
    rw [bagInter_cons_cons]
    split
    · simpa using length_bagInter_le_left l₁ ((b :: l₂).erase a)
    · exact Nat.le_succ_of_le (length_bagInter_le_left l₁ (b :: l₂))

theorem length_bagInter_le_right {α : Type} [BEq α] [LawfulBEq α] :
    ∀ l₁ l₂ : List α, (l₁.bagInter l₂).length ≤ l₂.length
  | [], _ => by simp [List.bagInter]
  | _ :: l₁, [] => by simp [bagInter_nil_right]
  | a :: l₁, b :: l₂ => by
    rw [bagInter_cons_cons]
    split
    · rename_i hmem
      have hm : a ∈ b :: l₂ := List.elem_iff.mp hmem
      have ih := length_bagInter_le_right l₁ ((b :: l₂).erase a)
      have he : ((b :: l₂).erase a).length = (b :: l₂).length - 1 :=
        List.length_erase_of_mem hm
      simp only [List.length_cons] at he ⊢
      omega
    · exact length_bagInter_le_right l₁ (b :: l₂)

theorem compareTwoStrings_nonneg (a b : String) : 0 ≤ compareTwoStrings a b := by
  simp only [compareTwoStrings]
  split
  · norm_num
  · split
    · norm_num
    · rename_i hne hlen
      push_neg at hlen
      apply div_nonneg
      · positivity
      · have h1 : (2 : ℚ) ≤ ((stripWhitespace a.data).length : ℚ) := by exact_mod_cast hlen.1
        have h2 : (2 : ℚ) ≤ ((stripWhitespace b.data).length : ℚ) := by exact_mod_cast hlen.2
        linarith

theorem compareTwoStrings_le_one (a b : String) : compareTwoStrings a b ≤ 1 := by
  simp only [compareTwoStrings]
  split
  · norm_num
  · split
    · norm_num
    · rename_i hne hlen
      push_neg at hlen
      set f := stripWhitespace a.data with hf
      set s := stripWhitespace b.data with hs
      have hfl : 2 ≤ f.length := hlen.1
      have hsl : 2 ≤ s.length := hlen.2
      have h1 : ((bigrams s).bagInter (bigrams f)).length ≤ s.length - 1 := by
        have := length_bagInter_le_left (bigrams s) (bigrams f)
        rwa [length_bigrams] at this
      have h2 : ((bigrams s).bagInter (bigrams f)).length ≤ f.length - 1 := by
        have := length_bagInter_le_right (bigrams s) (bigrams f)
        rwa [length_bigrams] at this
      have hdenpos : (0 : ℚ) < (f.length : ℚ) + (s.length : ℚ) - 2 := by
        have hq1 : (2 : ℚ) ≤ ((f.length : ℕ) : ℚ) := by exact_mod_cast hfl
        have hq2 : (2 : ℚ) ≤ ((s.length : ℕ) : ℚ) := by exact_mod_cast hsl
        linarith
      rw [div_le_one hdenpos]
      have hnat : 2 * ((bigrams s).bagInter (bigrams f)).length ≤ f.length + s.length - 2 := by
        omega
      have hq : ((2 * ((bigrams s).bagInter (bigrams f)).length : ℕ) : ℚ) ≤
          ((f.length + s.length - 2 : ℕ) : ℚ) := by
        exact_mod_cast hnat
      rw [Nat.cast_sub (by omega), Nat.cast_add, Nat.cast_mul] at hq
      simpa using hq

theorem compareTwoStrings_self (q : String) : compareTwoStrings q q = 1 := by
  simp [compareTwoStrings]

theorem compareTwoStrings_empty_left (d : String) :
    compareTwoStrings "" d = if stripWhitespace d.data = [] then 1 else 0 := by
  unfold compareTwoStrings
  have h : stripWhitespace "".data = [] := rfl
  simp only [h]
  by_cases hd : stripWhitespace d.data = []
  · simp [hd]
  · rw [if_neg (fun hcontra => hd hcontra.symm), if_pos (Or.inl (by simp)), if_neg hd]

/-! ## Fold-max lemmas for the best-match rating -/

theorem le_foldr_max {x a : ℚ} : ∀ {l : List ℚ}, x ∈ l → x ≤ l.foldr max a
  | b :: l, h => by
    rcases List.mem_cons.mp h with rfl | hmem
    · exact le_max_left _ _
    · exact le_trans (le_foldr_max hmem) (le_max_right _ _)

theorem foldr_max_mem (a : ℚ) : ∀ l : List ℚ, l.foldr max a = a ∨ l.foldr max a ∈ l
  | [] => Or.inl rfl
  | b :: l => by
    simp only [List.foldr_cons]
    rcases max_choice b (l.foldr max a) with h | h
    · rw [h]
      exact Or.inr (List.mem_cons_self b l)
    · rw [h]
      rcases foldr_max_mem a l with ha | hmem
      · exact Or.inl ha
      · exact Or.inr (List.mem_cons_of_mem b hmem)

theorem compareTwoStrings_le_bestMatchRating {q d : String} {ds : List String}
    (h : d ∈ ds) : compareTwoStrings q d ≤ bestMatchRating q ds :=
  le_foldr_max (List.mem_map_of_mem (fun x => compareTwoStrings q x) h)

theorem bestMatchRating_mem {q : String} {ds : List String} (h : ds ≠ []) :
    bestMatchRating q ds ∈ ds.map (fun d => compareTwoStrings q d) := by
  rcases foldr_max_mem (-1) (ds.map (fun d => compareTwoStrings q d)) with heq | hmem
  · exfalso
    rcases ds with _ | ⟨d, ds⟩
    · exact h rfl
    · have h1 : compareTwoStrings q d ≤ bestMatchRating q (d :: ds) :=
        compareTwoStrings_le_bestMatchRating (List.mem_cons_self d ds)
      have h2 : 0 ≤ compareTwoStrings q d := compareTwoStrings_nonneg q d
      have h3 : bestMatchRating q (d :: ds) = -1 := heq
      rw [h3] at h1
      linarith
  · exact hmem

/-! ## Sortedness and permutation facts for the ranked view -/

theorem sortedEntries_perm (q : String) (ms : List LineModel) :
    (sortedEntries q ms).Perm (ms.filter isEntry) :=
  List.mergeSort_perm (ms.filter isEntry) _

theorem mem_sortedEntries_iff (q : String) (ms : List LineModel) (m : LineModel) :
    m ∈ sortedEntries q ms ↔ m ∈ ms ∧ isEntry m = true := by
  rw [(sortedEntries_perm q ms).mem_iff, List.mem_filter]

theorem sortedEntries_sorted (q : String) (ms : List LineModel) :
    (sortedEntries q ms).Sorted
      (fun a b => bestMatchRating q (domainsOf b) ≤ bestMatchRating q (domainsOf a)) := by
  have h := @List.sorted_mergeSort LineModel
    (fun a b : LineModel => decide (sortLineModelsBySearchString q a b ≤ 0))
    (fun a b c hab hbc => by
      simp only [decide_eq_true_iff, sortLineModelsBySearchString, sub_nonpos] at hab hbc ⊢
      exact le_trans hbc hab)
    (fun a b => by
      simp only [Bool.or_eq_true, decide_eq_true_iff, sortLineModelsBySearchString,
        sub_nonpos]
      exact le_total (bestMatchRating q (domainsOf b)) (bestMatchRating q (domainsOf a)))
    (ms.filter isEntry)
  refine List.Pairwise.imp ?_ h
  intro a b hab
  simpa [sortLineModelsBySearchString, sub_nonpos] using hab

/-! ## Claim C9: the delete/restore toggle is an involution -/

/-- C9: applying the deleted-flag toggle twice to the same identifier
restores every record's original deleted-flag value, and a single toggle
changes no field other than the deleted flag (the records with the flag
cleared are the same before and after). -/
theorem claim9_toggle_involution (ms : List LineModel) (i : Nat) :
    toggleDeletedById (toggleDeletedById ms i) i = ms ∧
    (toggleDeletedById ms i).map onRestoreEntryButtonClick =
      ms.map onRestoreEntryButtonClick := by
  constructor
  · unfold toggleDeletedById
    rw [List.map_map]
    apply List.map_id''
    intro m
    by_cases h : idOf m = i
    · simp [Function.comp, h, idOf_toggleDeleted, toggleDeleted_toggleDeleted]
    · simp [Function.comp, h]
  · unfold toggleDeletedById
    rw [List.map_map]
    apply List.map_congr_left
    intro m _
    by_cases h : idOf m = i
    · simp [Function.comp, h, onRestore_toggleDeleted]
    · simp [Function.comp, h]

/-! ## Claim C10: records whose IP address is the string "undefined" -/

/-- C10: a record whose ipAddress field is the literal string "undefined"
(for example the one parsed from the line "undefined example.com") fails
isEntry, is excluded from the ranked view for every query and store, and
renderLineModel yields its absent value field (the JS value undefined)
rather than an IP-and-domains line. -/
theorem claim10_undefined_ip_excluded (i : Nat) (del : Bool) (ds : List String) :
    isEntry (.entry i del (some "undefined") ds) = false ∧
    renderLineModel (.entry i del (some "undefined") ds) = none ∧
    (∀ q ms, LineModel.entry i del (some "undefined") ds ∉ sortedEntries q ms) ∧
    stringToLineModel "undefined example.com" 3 =
      .entry 3 false (some "undefined") ["example.com"] := by
  refine ⟨by simp [isEntry], by simp [renderLineModel, isEntry], ?_, by decide⟩
  intro q ms h
  have h2 := ((mem_sortedEntries_iff q ms _).mp h).2
  simp [isEntry] at h2

/-! ## Claim C4: renew failure handling (code bug evidence) -/

/-- C4 (code-bug evidence): when the single per-domain lookup of a renew
fulfils with status 200 but an empty ip_addresses candidate list, the code
overwrites the record's IP address with JS undefined (element 0 of an
empty array) and surfaces zero failure notifications — the record is not
left unchanged and no alert is shown; a rejected request, by contrast,
leaves the record unchanged with exactly one alert. -/
theorem claim4_empty_candidates_mutates_silently :
    onRenewEntryButtonClick (.entry 7 false (some "127.0.0.1") ["example.com"])
        [Except.ok ⟨[], "no result", 200⟩] =
      (.entry 7 false none ["example.com"], 0) ∧
    LineModel.entry 7 false none ["example.com"] ≠
      .entry 7 false (some "127.0.0.1") ["example.com"] ∧
    onRenewEntryButtonClick (.entry 7 false (some "127.0.0.1") ["example.com"])
        [Except.error ()] =
      (.entry 7 false (some "127.0.0.1") ["example.com"], 1) := by
  refine ⟨rfl, by decide, rfl⟩

/-! ## Claim C2: the ranked view is exactly the isEntry records -/

/-- C2: for every query and store, the ranked view is a permutation of the
records passing isEntry (no additions, no omissions, no duplicates), a
record belongs to it exactly when it is in the store and passes isEntry
(deleted records included), and a domain exactly equal to the query scores
1, which is the maximal similarity value. -/
theorem claim2_ranked_view_exact (q : String) (E : List LineModel) :
    (sortedEntries q E).Perm (E.filter isEntry) ∧
    (∀ m, m ∈ sortedEntries q E ↔ m ∈ E ∧ isEntry m = true) ∧
    (∀ m, m ∈ E → isEntry m = true → ∀ d, d ∈ domainsOf m → d = q →
      compareTwoStrings q d = 1 ∧ ∀ e : String, compareTwoStrings q e ≤ 1) := by
  refine ⟨sortedEntries_perm q E, fun m => mem_sortedEntries_iff q E m, ?_⟩
  intro m _ _ d _ hdq
  subst hdq
  exact ⟨compareTwoStrings_self d, fun e => compareTwoStrings_le_one d e⟩

/-- Witness for C2 at a concrete query and store: the deleted record with
domain equal to the query is in the ranked view and its matching domain
scores 1. -/
theorem claim2_ranked_view_exact_witness :
    LineModel.entry 0 true (some "1.2.3.4") ["foo.example"] ∈
      sortedEntries "foo.example"
        [.entry 0 true (some "1.2.3.4") ["foo.example"], .plain 1 false "# note"] ∧
    compareTwoStrings "foo.example" "foo.example" = 1 := by
  have h := claim2_ranked_view_exact "foo.example"
    [.entry 0 true (some "1.2.3.4") ["foo.example"], .plain 1 false "# note"]
  refine ⟨(h.2.1 _).mpr ⟨by decide, by decide⟩, ?_⟩
  exact ((h.2.2 (.entry 0 true (some "1.2.3.4") ["foo.example"]) (by decide) (by decide)
    "foo.example" (by decide) rfl).1)

/-! ## Claim C3: the ranked view is sorted by descending relevance -/

/-- C3: for every query, the ranked view is sorted in descending order of
each record's relevance, relevance being the best-match rating — which,
for a record with at least one domain, is the maximum of the similarity
scores of the query against each domain computed independently (it is one
of the per-domain scores and bounds all of them). -/
theorem claim3_sorted_by_descending_relevance (q : String) (ms : List LineModel) :
    (sortedEntries q ms).Sorted
      (fun a b => bestMatchRating q (domainsOf b) ≤ bestMatchRating q (domainsOf a)) ∧
    (∀ m : LineModel, domainsOf m ≠ [] →
      bestMatchRating q (domainsOf m) ∈ (domainsOf m).map (fun d => compareTwoStrings q d) ∧
      ∀ d ∈ domainsOf m, compareTwoStrings q d ≤ bestMatchRating q (domainsOf m)) :=
  ⟨sortedEntries_sorted q ms,
    fun _ hm => ⟨bestMatchRating_mem hm,
      fun _ hd => compareTwoStrings_le_bestMatchRating hd⟩⟩

/-- Witness for C3 at a concrete query and store. -/
theorem claim3_sorted_by_descending_relevance_witness :
    (sortedEntries "foo"
        [.entry 0 false (some "127.0.0.1") ["localhost"],
         .entry 1 false (some "10.0.0.5") ["foo.example", "bar.example"]]).Sorted
      (fun a b => bestMatchRating "foo" (domainsOf b) ≤ bestMatchRating "foo" (domainsOf a)) ∧
    ∀ d ∈ domainsOf (LineModel.entry 1 false (some "10.0.0.5") ["foo.example", "bar.example"]),
      compareTwoStrings "foo" d ≤
        bestMatchRating "foo"
          (domainsOf (LineModel.entry 1 false (some "10.0.0.5") ["foo.example", "bar.example"])) := by
  refine ⟨(claim3_sorted_by_descending_relevance "foo" _).1, ?_⟩
  exact ((claim3_sorted_by_descending_relevance "foo"
    [.entry 0 false (some "127.0.0.1") ["localhost"],
     .entry 1 false (some "10.0.0.5") ["foo.example", "bar.example"]]).2
    (.entry 1 false (some "10.0.0.5") ["foo.example", "bar.example"]) (by decide)).2

/-! ## Claim C7: the empty query does not fail the ranker -/

/-- C7: with the empty query the ranker is total: for every store it still
returns the permutation of the isEntry records (every mapping record of
the store is in the result), and the empty-query similarity score against
any domain is the value the similarity function gives an empty string — 1
against a whitespace-only domain and 0 against any other. -/
theorem claim7_empty_query_total (E : List LineModel) :
    (sortedEntries "" E).Perm (E.filter isEntry) ∧
    (∀ m, m ∈ E → isEntry m = true → m ∈ sortedEntries "" E) ∧
    (∀ d : String, compareTwoStrings "" d = if stripWhitespace d.data = [] then 1 else 0) :=
  ⟨sortedEntries_perm "" E,
    fun m h1 h2 => (mem_sortedEntries_iff "" E m).mpr ⟨h1, h2⟩,
    compareTwoStrings_empty_left⟩

/-- Witness for C7 at a concrete store. -/
theorem claim7_empty_query_total_witness :
    LineModel.entry 0 false (some "127.0.0.1") ["localhost"] ∈
      sortedEntries "" [.entry 0 false (some "127.0.0.1") ["localhost"]] ∧
    compareTwoStrings "" "localhost" = 0 := by
  have h := claim7_empty_query_total [.entry 0 false (some "127.0.0.1") ["localhost"]]
  refine ⟨h.2.1 _ (by decide) (by decide), ?_⟩
  have h3 := h.2.2 "localhost"
  simpa using h3

/-! ## Lemmas about dropWhile, trimming, tokens and space-collapsing -/

theorem head?_dropWhile_not {p : Char → Bool} {x : Char} :
    ∀ {l : List Char}, (l.dropWhile p).head? = some x → p x = false := by
  intro l
  induction l with
  | nil => intro h; simp at h
  | cons c rest ih =>
    intro h
    rw [List.dropWhile_cons] at h
    split at h
    · exact ih h
    · rename_i hc
      simp at h
      subst h
      simpa using hc

theorem getLast?_dropWhile_of_ne {p : Char → Bool} {x : Char} :
    ∀ {l : List Char}, l.getLast? = some x → p x = false →
      (l.dropWhile p).getLast? = some x := by
  intro l
  induction l with
  | nil => intro h _; simp at h
  | cons c rest ih =>
    intro h hx
    rw [List.dropWhile_cons]
    split
    · rename_i hc
      cases rest with
      | nil =>
        simp at h
        subst h
        rw [hc] at hx
        cases hx
      | cons d t =>
        rw [List.getLast?_cons_cons] at h
        exact ih h hx
    · exact h

theorem jsTrimList_getLast?_not_ws {l : List Char} {c : Char}
    (h : (jsTrimList l).getLast? = some c) : isJsWhitespaceChar c = false := by
  unfold jsTrimList at h
  rw [List.getLast?_reverse] at h
  exact head?_dropWhile_not h

theorem jsTrimList_head?_not_ws {l : List Char} {c : Char}
    (h : (jsTrimList l).head? = some c) : isJsWhitespaceChar c = false := by
  unfold jsTrimList at h
  rw [List.head?_reverse] at h
  set Y := (l.dropWhile isJsWhitespaceChar).reverse.dropWhile isJsWhitespaceChar with hY
  have hYne : Y ≠ [] := by
    intro h0
    rw [h0] at h
    simp at h
  have hlast : Y.getLast? = ((l.dropWhile isJsWhitespaceChar).reverse).getLast? := by
    conv_rhs => rw [← List.takeWhile_append_dropWhile isJsWhitespaceChar
      (l.dropWhile isJsWhitespaceChar).reverse]
    rw [List.getLast?_append, ← hY]
    cases hg : Y.getLast? with
    | none => exact absurd (List.getLast?_eq_none_iff.mp hg) hYne
    | some y => rfl
  rw [hlast, List.getLast?_reverse] at h
  exact head?_dropWhile_not h

theorem jsTrimList_cons_of_not_ws {c : Char} (l : List Char)
    (h : isJsWhitespaceChar c = false) : (jsTrimList (c :: l)).head? = some c := by
  unfold jsTrimList
  rw [List.dropWhile_cons, if_neg (by simp [h]), List.head?_reverse]
  have hrev : (c :: l).reverse = l.reverse ++ [c] := by simp
  rw [hrev]
  have hne : (l.reverse ++ [c]).dropWhile isJsWhitespaceChar ≠ [] := by
    intro h0
    have hall := List.dropWhile_eq_nil_iff.mp h0
    have : isJsWhitespaceChar c = true := hall c (by simp)
    rw [h] at this
    cases this
  have hlast : ((l.reverse ++ [c]).dropWhile isJsWhitespaceChar).getLast? =
      (l.reverse ++ [c]).getLast? := by
    conv_rhs => rw [← List.takeWhile_append_dropWhile isJsWhitespaceChar (l.reverse ++ [c])]
    rw [List.getLast?_append]
    cases hg : ((l.reverse ++ [c]).dropWhile isJsWhitespaceChar).getLast? with
    | none => exact absurd (List.getLast?_eq_none_iff.mp hg) hne
    | some y => rfl
  rw [hlast]
  simp

/-- Bool test for the space character (the separator of the split). -/
def isSpaceChar (c : Char) : Bool :=
  c = ' '

theorem tokensAux_ne_nil : ∀ (l acc : List Char), acc ≠ [] → tokensAux acc l ≠ []
  | [], acc, h => by simp [tokensAux, h]
  | c :: rest, acc, h => by
    by_cases hc : c = ' '
    · simp [tokensAux, hc, h]
    · simpa [tokensAux, hc] using tokensAux_ne_nil rest (c :: acc) (by simp)

theorem tokensAux_nil_dropWhile :
    ∀ l : List Char, tokensAux [] (l.dropWhile isSpaceChar) = tokensAux [] l
  | [] => rfl
  | c :: rest => by
    by_cases hc : c = ' '
    · rw [List.dropWhile_cons, if_pos (by simp [isSpaceChar, hc])]
      rw [tokensAux_nil_dropWhile rest]
      simp [tokensAux, hc]
    · rw [List.dropWhile_cons, if_neg (by simp [isSpaceChar, hc])]

theorem collapseSpaces_cons_of_ne {c : Char} (l : List Char) (h : ¬ c = ' ') :
    collapseSpaces (c :: l) = c :: collapseSpaces l := by
  cases l with
  | nil => rfl
  | cons c2 rest => simp [collapseSpaces, h]

theorem collapseSpaces_space :
    ∀ l : List Char, collapseSpaces (' ' :: l) = ' ' :: collapseSpaces (l.dropWhile isSpaceChar)
  | [] => rfl
  | c2 :: rest => by
    by_cases h : c2 = ' '
    · subst h
      have h1 : collapseSpaces (' ' :: ' ' :: rest) = collapseSpaces (' ' :: rest) := by
        simp [collapseSpaces]
      rw [h1, collapseSpaces_space rest, List.dropWhile_cons,
        if_pos (by simp [isSpaceChar])]
    · rw [List.dropWhile_cons, if_neg (by simp [isSpaceChar, h])]
      simp [collapseSpaces, h]

theorem joinSpace_cons (d : List Char) {ts : List (List Char)} (h : ts ≠ []) :
    joinSpace (d :: ts) = d ++ ' ' :: joinSpace ts := by
  cases ts with
  | nil => exact absurd rfl h
  | cons d2 rest => rfl

theorem joinSpace_tokensAux_nil (acc : List Char) :
    joinSpace (tokensAux acc []) = acc.reverse ++ collapseSpaces [] := by
  by_cases h : acc = [] <;> simp [tokensAux, h, joinSpace, collapseSpaces]

/-- The central round-trip fact: on a list whose ends are not spaces,
joining the space-split tokens with single spaces equals collapsing each
run of spaces to a single space.  Stated with an explicit length bound and
a partial-token accumulator to support the strong induction. -/
theorem joinSpace_tokensAux : ∀ n : Nat, ∀ l : List Char, l.length ≤ n →
    ∀ acc : List Char, l.getLast? ≠ some ' ' → (acc = [] → l.head? ≠ some ' ') →
    joinSpace (tokensAux acc l) = acc.reverse ++ collapseSpaces l := by
  intro n
  induction n with
  | zero =>
    intro l hl acc _ _
    have h0 : l = [] := List.length_eq_zero.mp (Nat.le_zero.mp hl)
    subst h0
    exact joinSpace_tokensAux_nil acc
  | succ n ih =>
    intro l hl acc hlast hhead
    cases l with
    | nil => exact joinSpace_tokensAux_nil acc
    | cons c rest =>
      by_cases hc : c = ' '
      · subst hc
        by_cases hacc : acc = []
        · exact absurd (by simp : (' ' :: rest).head? = some ' ') (hhead hacc)
        · have h1 : tokensAux acc (' ' :: rest) = acc.reverse :: tokensAux [] rest := by
            simp [tokensAux, hacc]
          have hrest_ne : rest ≠ [] := by
            rintro rfl
            simp at hlast
          have hrl : rest.getLast? ≠ some ' ' := by
            cases rest with
            | nil => simp
            | cons d t => rwa [List.getLast?_cons_cons] at hlast
          have hrne : rest.dropWhile isSpaceChar ≠ [] := by
            intro h0
            have hall := List.dropWhile_eq_nil_iff.mp h0
            have hmem := List.getLast_mem hrest_ne
            have hsp := hall _ hmem
            rw [List.getLast?_eq_getLast rest hrest_ne] at hrl
            simp [isSpaceChar] at hsp
            exact hrl (by rw [hsp])
          have hrhead : (rest.dropWhile isSpaceChar).head? ≠ some ' ' := by
            intro hh
            have := head?_dropWhile_not hh
            simp [isSpaceChar] at this
          have hrlast : (rest.dropWhile isSpaceChar).getLast? ≠ some ' ' := by
            cases hgl : rest.getLast? with
            | none => exact absurd (List.getLast?_eq_none_iff.mp hgl) hrest_ne
            | some x =>
              have hx : isSpaceChar x = false := by
                have hxne : ¬ x = ' ' := fun hcontra => hrl (by rw [hgl, hcontra])
                simp [isSpaceChar, hxne]
              rw [getLast?_dropWhile_of_ne hgl hx]
              intro hcontra
              simp at hcontra
              subst hcontra
              simp [isSpaceChar] at hx
          have hlen : (rest.dropWhile isSpaceChar).length ≤ n := by
            have h2 : (rest.dropWhile isSpaceChar).length ≤ rest.length :=
              (List.dropWhile_sublist isSpaceChar).length_le
            have h3 : rest.length + 1 ≤ n + 1 := by simpa using hl
            omega
          have ihr := ih (rest.dropWhile isSpaceChar) hlen [] hrlast (fun _ => hrhead)
          have hseq : tokensAux [] rest = tokensAux [] (rest.dropWhile isSpaceChar) :=
            (tokensAux_nil_dropWhile rest).symm
          have htne : tokensAux [] (rest.dropWhile isSpaceChar) ≠ [] := by
            cases hr2 : rest.dropWhile isSpaceChar with
            | nil => exact absurd hr2 hrne
            | cons x xs =>
              have hx : ¬ x = ' ' := by
                intro hcontra
                exact hrhead (by rw [hr2, hcontra]; rfl)
              simpa [tokensAux, hx] using tokensAux_ne_nil xs [x] (by simp)
          rw [h1, hseq, joinSpace_cons _ htne, ihr, collapseSpaces_space rest]
          simp
      · have h1 : tokensAux acc (c :: rest) = tokensAux (c :: acc) rest := by
          simp [tokensAux, hc]
        have hrl : rest.getLast? ≠ some ' ' := by
          cases rest with
          | nil => simp
          | cons d t => rwa [List.getLast?_cons_cons] at hlast
        have hlen : rest.length ≤ n := by
          have h3 : rest.length + 1 ≤ n + 1 := by simpa using hl
          omega
        have ihr := ih rest hlen (c :: acc) hrl (by intro h0; simp at h0)
        rw [h1, ihr, collapseSpaces_cons_of_ne rest hc]
        simp

/-- Specialisation: on a list with no space at either end (such as a
trimmed line), joining the tokens with single spaces is the same as
collapsing space runs. -/
theorem joinSpace_tokens (l : List Char) (h1 : l.head? ≠ some ' ')
    (h2 : l.getLast? ≠ some ' ') : joinSpace (tokens l) = collapseSpaces l := by
  simpa using joinSpace_tokensAux l.length l le_rfl [] h2 (fun _ => h1)

/-! ## Parse/render composition lemmas -/

theorem string_data_ext {s t : String} (h : s.data = t.data) : s = t :=
  congrArg String.mk h

theorem jsTrim_data (L : String) : (jsTrim L).data = jsTrimList L.data := rfl

theorem jsTrim_head_ne_space (L : String) : (jsTrim L).data.head? ≠ some ' ' := by
  intro h
  rw [jsTrim_data] at h
  have := jsTrimList_head?_not_ws h
  simp [isJsWhitespaceChar] at this

theorem jsTrim_getLast_ne_space (L : String) : (jsTrim L).data.getLast? ≠ some ' ' := by
  intro h
  rw [jsTrim_data] at h
  have := jsTrimList_getLast?_not_ws h
  simp [isJsWhitespaceChar] at this

theorem stringToLineModel_plain {L : String} (id : Nat)
    (h : (jsTrim L).data.head? = some '#' ∨ (jsTrim L).data = []) :
    stringToLineModel L id = .plain id false (jsTrim L) := by
  simp only [stringToLineModel]
  rw [if_pos h]

theorem stringToLineModel_mapping {L : String} (id : Nat) (a : List Char)
    (ds : List (List Char))
    (hne : ¬((jsTrim L).data.head? = some '#' ∨ (jsTrim L).data = []))
    (htok : tokens (jsTrim L).data = a :: ds) :
    stringToLineModel L id = .entry id false (some (String.mk a)) (ds.map String.mk) := by
  simp only [stringToLineModel]
  rw [if_neg hne, htok]
  simp

theorem tokens_ne_nil {l : List Char} (hne : l ≠ []) (hh : l.head? ≠ some ' ') :
    tokens l ≠ [] := by
  cases l with
  | nil => exact absurd rfl hne
  | cons c rest =>
    have hc : ¬ c = ' ' := by
      intro hcontra
      exact hh (by rw [hcontra]; rfl)
    simpa [tokens, tokensAux, hc] using tokensAux_ne_nil rest [c] (by simp)

theorem renderLineModel_entry_some (id : Nat) (del : Bool) (s : String)
    (ds : List String) (h : s ≠ "undefined") :
    renderLineModel (.entry id del (some s) ds) =
      some (String.mk (s.data ++ ' ' :: joinSpace (ds.map String.data))) := by
  simp only [renderLineModel]
  rw [if_pos (by simp [isEntry, h])]
  congr 1
  apply string_data_ext
  simp [String.data_append, jsStringOfField]

theorem renderLineModel_entry_none_ip (id : Nat) (del : Bool) (ds : List String) :
    renderLineModel (.entry id del none ds) =
      some (String.mk ("undefined".data ++ ' ' :: joinSpace (ds.map String.data))) := by
  simp only [renderLineModel]
  rw [if_pos (by simp [isEntry])]
  congr 1

theorem renderLineModel_entry_undefined (id : Nat) (del : Bool) (ds : List String) :
    renderLineModel (.entry id del (some "undefined") ds) = none := by
  simp only [renderLineModel]
  rw [if_neg (by simp [isEntry])]

/-! ## Claim C1: the render-after-parse round trip -/

/-- Modelled from the spec: the whitespace-normalised form of an input
line the round-trip claim compares against — the trimmed text for a
comment-or-blank line, and the trimmed text with every space run
collapsed to a single space for a mapping line. -/
def specNormalizedLine (L : String) : String :=
  if (jsTrim L).data.head? = some '#' ∨ (jsTrim L).data = [] then jsTrim L
  else String.mk (collapseSpaces (jsTrim L).data)

/-- Counterexample to C1 as stated: for the input line
"undefined example.com" the render of the parse is the JS value undefined
(the Entry fails isEntry, and its value field is absent), not the
whitespace-normalised line. -/
theorem claim1_round_trip_counterexample :
    renderLineModel (stringToLineModel "undefined example.com" 0) = none ∧
    renderLineModel (stringToLineModel "undefined example.com" 0) ≠
      some (specNormalizedLine "undefined example.com") := by
  constructor
  · decide
  · decide

/-- C1 (amended): render-after-parse reproduces the trimmed line exactly
for comment-or-blank lines; for a mapping line whose first token is not
the literal "undefined" it yields the trimmed line with space runs
collapsed to single spaces, plus one trailing space when the line has no
domain tokens; for a mapping line whose first token is "undefined" it
yields no string at all (the record's absent value field). -/
theorem claim1_round_trip_amended (L : String) (id : Nat) :
    ((jsTrim L).data.head? = some '#' ∨ (jsTrim L).data = [] →
      renderLineModel (stringToLineModel L id) = some (jsTrim L)) ∧
    (∀ a : List Char, ∀ ds : List (List Char),
      ¬((jsTrim L).data.head? = some '#' ∨ (jsTrim L).data = []) →
      tokens (jsTrim L).data = a :: ds → ¬ a = "undefined".data →
      renderLineModel (stringToLineModel L id) =
        some (String.mk (collapseSpaces (jsTrim L).data ++
          if ds = [] then [' '] else []))) ∧
    (∀ a : List Char, ∀ ds : List (List Char),
      ¬((jsTrim L).data.head? = some '#' ∨ (jsTrim L).data = []) →
      tokens (jsTrim L).data = a :: ds → a = "undefined".data →
      renderLineModel (stringToLineModel L id) = none) := by
  refine ⟨?_, ?_, ?_⟩
  · intro h
    rw [stringToLineModel_plain id h]
    rfl
  · intro a ds hne htok ha
    rw [stringToLineModel_mapping id a ds hne htok]
    have hmk : String.mk a ≠ "undefined" := by
      intro hcontra
      exact ha (congrArg String.data hcontra)
    rw [renderLineModel_entry_some id false (String.mk a) (ds.map String.mk) hmk]
    have hkey : joinSpace (tokens (jsTrim L).data) = collapseSpaces (jsTrim L).data :=
      joinSpace_tokens _ (jsTrim_head_ne_space L) (jsTrim_getLast_ne_space L)
    rw [htok] at hkey
    have hmap : (ds.map String.mk).map String.data = ds := by
      rw [List.map_map]
      exact List.map_id'' (fun x => rfl) ds
    rw [hmap, data_mk]
    cases ds with
    | nil =>
      have ha2 : a = collapseSpaces (jsTrim L).data := by
        rw [← hkey]
        rfl
      simp [← ha2, joinSpace]
    | cons d rest =>
      have hjoin : a ++ ' ' :: joinSpace (d :: rest) = joinSpace (a :: d :: rest) := rfl
      rw [hjoin, hkey]
      simp
  · intro a ds hne htok ha
    subst ha
    rw [stringToLineModel_mapping id _ ds hne htok]
    have : String.mk "undefined".data = "undefined" := rfl
    rw [this]
    exact renderLineModel_entry_undefined id false (ds.map String.mk)

/-- Witness for C1 (amended) at concrete lines of each arm: a comment
line, a mapping line with two domain tokens and doubled spaces, a
single-token mapping line, and a mapping line whose first token is
"undefined". -/
theorem claim1_round_trip_amended_witness :
    renderLineModel (stringToLineModel "  # note " 0) = some (jsTrim "  # note ") ∧
    renderLineModel (stringToLineModel "10.0.0.5  foo.example bar.example" 1) =
      some (String.mk (collapseSpaces (jsTrim "10.0.0.5  foo.example bar.example").data ++
        (if (["foo.example".data, "bar.example".data] : List (List Char)) = []
          then [' '] else []))) ∧
    renderLineModel (stringToLineModel "127.0.0.1" 2) =
      some (String.mk (collapseSpaces (jsTrim "127.0.0.1").data ++
        (if ([] : List (List Char)) = [] then [' '] else []))) ∧
    renderLineModel (stringToLineModel "undefined example.com" 3) = none := by
  refine ⟨(claim1_round_trip_amended "  # note " 0).1 (by decide), ?_, ?_, ?_⟩
  · exact (claim1_round_trip_amended "10.0.0.5  foo.example bar.example" 1).2.1
      "10.0.0.5".data ["foo.example".data, "bar.example".data]
      (by decide) (by decide) (by decide)
  · exact (claim1_round_trip_amended "127.0.0.1" 2).2.1 "127.0.0.1".data []
      (by decide) (by decide) (by decide)
  · exact (claim1_round_trip_amended "undefined example.com" 3).2.2
      "undefined".data ["example.com".data] (by decide) (by decide) (by decide)

/-! ## Claim C6: non-emptiness of the parsed domain list -/

/-- Counterexample to C6 as stated: the single-token mapping line
"127.0.0.1" parses to a mapping record whose domain list is empty. -/
theorem claim6_domains_counterexample :
    isMappingRecord (stringToLineModel "127.0.0.1" 0) = true ∧
    domainsOf (stringToLineModel "127.0.0.1" 0) = [] := by
  decide

/-- C6 (amended): on a non-comment, non-blank line the split always
yields at least the IP token, the record's IP field holds that first
token, and the domain list holds the remaining tokens — empty exactly
when the line has a single token; no operation (delete/restore toggle,
renew) modifies a record's domain list. -/
theorem claim6_domains_amended (L : String) (id : Nat) :
    (¬((jsTrim L).data.head? = some '#' ∨ (jsTrim L).data = []) →
      ∃ ipTok : List Char, ∃ ds : List (List Char),
        tokens (jsTrim L).data = ipTok :: ds ∧
        stringToLineModel L id = .entry id false (some (String.mk ipTok)) (ds.map String.mk) ∧
        (domainsOf (stringToLineModel L id) = [] ↔ ds = [])) ∧
    (∀ m : LineModel, domainsOf (toggleDeleted m) = domainsOf m) ∧
    (∀ m : LineModel, ∀ rs : List (Except Unit ApiResponse),
      domainsOf (onRenewEntryButtonClick m rs).1 = domainsOf m) := by
  refine ⟨?_, domainsOf_toggleDeleted, domainsOf_onRenew⟩
  intro hne
  have hdata : (jsTrim L).data ≠ [] := fun h0 => hne (Or.inr h0)
  have hhead : (jsTrim L).data.head? ≠ some ' ' := jsTrim_head_ne_space L
  cases htok : tokens (jsTrim L).data with
  | nil => exact absurd htok (tokens_ne_nil hdata hhead)
  | cons a ds =>
    refine ⟨a, ds, rfl, stringToLineModel_mapping id a ds hne htok, ?_⟩
    rw [stringToLineModel_mapping id a ds hne htok]
    simp [domainsOf]

/-- Witness for C6 (amended) at the single-token line "127.0.0.1". -/
theorem claim6_domains_amended_witness :
    ∃ ipTok : List Char, ∃ ds : List (List Char),
      tokens (jsTrim "127.0.0.1").data = ipTok :: ds ∧
      stringToLineModel "127.0.0.1" 0 =
        .entry 0 false (some (String.mk ipTok)) (ds.map String.mk) ∧
      (domainsOf (stringToLineModel "127.0.0.1" 0) = [] ↔ ds = []) :=
  (claim6_domains_amended "127.0.0.1" 0).1 (by decide)

/-! ## Claim C8: the parsed domain list has exactly the line's tokens -/

/-- C8: a non-empty, non-comment line whose space-delimited token list is
an IP token followed by n domain tokens parses to a mapping record whose
domain list holds exactly those n tokens, in their original order. -/
theorem claim8_domain_token_count (L : String) (id : Nat) (ipTok : List Char)
    (ds : List (List Char))
    (hne : ¬((jsTrim L).data.head? = some '#' ∨ (jsTrim L).data = []))
    (htok : tokens (jsTrim L).data = ipTok :: ds) :
    stringToLineModel L id = .entry id false (some (String.mk ipTok)) (ds.map String.mk) ∧
    domainsOf (stringToLineModel L id) = ds.map String.mk ∧
    (domainsOf (stringToLineModel L id)).length = ds.length := by
  have h := stringToLineModel_mapping id ipTok ds hne htok
  refine ⟨h, ?_, ?_⟩ <;> rw [h] <;> simp [domainsOf]

/-- Witness for C8 at a concrete line with two domain tokens and a run of
spaces. -/
theorem claim8_domain_token_count_witness :
    stringToLineModel "1.2.3.4  a.example b.example" 0 =
      .entry 0 false (some (String.mk "1.2.3.4".data))
        (["a.example".data, "b.example".data].map String.mk) ∧
    domainsOf (stringToLineModel "1.2.3.4  a.example b.example" 0) =
      ["a.example".data, "b.example".data].map String.mk ∧
    (domainsOf (stringToLineModel "1.2.3.4  a.example b.example" 0)).length = 2 :=
  claim8_domain_token_count "1.2.3.4  a.example b.example" 0 "1.2.3.4".data
    ["a.example".data, "b.example".data] (by decide) (by decide)

/-! ## Claim C5: saving includes every record; re-parsing preserves kind -/

/-- The record shapes whose rendered line re-parses to the same record
kind: a Plain whose text still trims to a comment or an empty line, and
an Entry passing isEntry whose (present or undefined) IP value starts
with a non-whitespace character other than the hash character.  Records
the parser itself produces have these shapes, except for mapping lines
whose first token is the literal "undefined". -/
def saveKindSafe : LineModel → Bool
  | .plain _ _ v => decide ((jsTrim v).data.head? = some '#' ∨ (jsTrim v).data = [])
  | .entry _ _ none _ => true
  | .entry _ _ (some s) _ =>
    match s.data with
    | [] => false
    | c :: _ => decide (s ≠ "undefined") && !(isJsWhitespaceChar c) && decide (¬ c = '#')

theorem isMappingRecord_reparse_of_head {w : String} (j : List Char) (id : Nat)
    {c : Char} {t : List Char} (hw : w.data = c :: t)
    (hws : isJsWhitespaceChar c = false) (hc : ¬ c = '#') :
    isMappingRecord (stringToLineModel (String.mk (w.data ++ ' ' :: j)) id) = true := by
  have hl : w.data ++ ' ' :: j = c :: (t ++ ' ' :: j) := by rw [hw]; rfl
  have hhead : (jsTrim (String.mk (w.data ++ ' ' :: j))).data.head? = some c := by
    rw [jsTrim_data, data_mk, hl]
    exact jsTrimList_cons_of_not_ws _ hws
  have hne : ¬((jsTrim (String.mk (w.data ++ ' ' :: j))).data.head? = some '#' ∨
      (jsTrim (String.mk (w.data ++ ' ' :: j))).data = []) := by
    rintro (h1 | h2)
    · rw [hhead] at h1
      exact hc (by simpa using h1)
    · rw [h2] at hhead
      cases hhead
  simp only [stringToLineModel]
  rw [if_neg hne]
  rfl

theorem reparse_kind_of_safe (m : LineModel) (h : saveKindSafe m = true) (id : Nat) :
    isMappingRecord (stringToLineModel ((renderLineModel m).getD "") id) =
      isMappingRecord m := by
  cases m with
  | plain i d v =>
    have hsafe : (jsTrim v).data.head? = some '#' ∨ (jsTrim v).data = [] := by
      simpa [saveKindSafe] using h
    show isMappingRecord (stringToLineModel v id) = _
    rw [stringToLineModel_plain id hsafe]
    rfl
  | entry i d ip ds =>
    cases ip with
    | none =>
      rw [renderLineModel_entry_none_ip]
      exact isMappingRecord_reparse_of_head (w := "undefined")
        (joinSpace (ds.map String.data)) id rfl (by decide) (by decide)
    | some s =>
      cases hsd : s.data with
      | nil => simp [saveKindSafe, hsd] at h
      | cons c t =>
        simp only [saveKindSafe, hsd, Bool.and_eq_true, decide_eq_true_eq,
          Bool.not_eq_true'] at h
        rw [renderLineModel_entry_some i d s ds h.1.1]
        exact isMappingRecord_reparse_of_head (joinSpace (ds.map String.data)) id
          hsd h.1.2 h.2

/-- Counterexample to C5 as stated: a store holding the mapping record
parsed from "undefined example.com" serializes that record to the empty
line (renderLineModel yields the absent value field, which the join
stringifies as the empty string), and re-parsing that line yields a
comment-or-blank record — the mapping kind is not reproduced. -/
theorem claim5_save_round_trip_counterexample :
    isMappingRecord (stringToLineModel "undefined example.com" 0) = true ∧
    flushFileLines [stringToLineModel "undefined example.com" 0] = [""] ∧
    isMappingRecord (stringToLineModel "" 0) = false := by
  decide

/-- C5 (amended): for every store whose records are save-kind-safe —
which deleted flags never affect — the save output has exactly one line
per record (deleted or not), and re-parsing each output line reproduces
the kind (mapping versus comment-or-blank) of the corresponding record.
Mapping records whose IP field is the literal string "undefined" are the
exception the counterexample exhibits: they serialize to an empty line
that re-parses as comment-or-blank. -/
theorem claim5_save_round_trip_amended (ms : List LineModel)
    (h : ∀ m ∈ ms, saveKindSafe m = true) :
    (flushFileLines ms).length = ms.length ∧
    (flushFileLines ms).map (fun l => isMappingRecord (stringToLineModel l 0)) =
      ms.map isMappingRecord := by
  constructor
  · simp [flushFileLines]
  · unfold flushFileLines
    rw [List.map_map]
    apply List.map_congr_left
    intro m hm
    exact reparse_kind_of_safe m (h m hm) 0

/-- Witness for C5 (amended) at a concrete store holding a deleted
comment, a deleted mapping record, a live mapping record with no domains,
and a record whose IP is the JS value undefined. -/
theorem claim5_save_round_trip_amended_witness :
    (flushFileLines
        [LineModel.plain 0 true "# note",
         LineModel.entry 1 true (some "10.0.0.5") ["foo.example"],
         LineModel.entry 2 false (some "127.0.0.1") [],
         LineModel.entry 3 false none ["a.example"]]).length = 4 ∧
    (flushFileLines
        [LineModel.plain 0 true "# note",
         LineModel.entry 1 true (some "10.0.0.5") ["foo.example"],
         LineModel.entry 2 false (some "127.0.0.1") [],
         LineModel.entry 3 false none ["a.example"]]).map
      (fun l => isMappingRecord (stringToLineModel l 0)) =
      [LineModel.plain 0 true "# note",
       LineModel.entry 1 true (some "10.0.0.5") ["foo.example"],
       LineModel.entry 2 false (some "127.0.0.1") [],
       LineModel.entry 3 false none ["a.example"]].map isMappingRecord :=
  claim5_save_round_trip_amended
    [LineModel.plain 0 true "# note",
     LineModel.entry 1 true (some "10.0.0.5") ["foo.example"],
     LineModel.entry 2 false (some "127.0.0.1") [],
     LineModel.entry 3 false none ["a.example"]] (by decide)
